import Mathlib

/-!
Verification of the paragraph-grouping core of `src/api/main.py`
(`calculate_bbox_properties`, `calculate_distance`, `is_horizontally_aligned`,
`is_vertically_aligned`, `should_merge_bubbles`, `manga_reading_order_sort`,
`calculate_collective_bbox`, `group_paragraphs`).

Modelling conventions:
- Coordinates and scores are exact rationals (`ℚ`); the Python floats are read
  at their mathematical value.
- `math.sqrt` appears in the source only inside comparisons of
  `relative_distance = sqrt(d²)/avg_size` against constants.  We carry the
  squared distance and encode each comparison by an equivalent square-free
  rational test (`relDistGT`, `relDistLT`); the equivalence with the real
  `Real.sqrt`-valued comparison is proved in the theorem for claim C2.
- Python exceptions (e.g. `min([])` on a bbox with no points) are modelled by
  `Option`: `none` is the error outcome.
- The `while search_expanded` loop and the outer seed loop are modelled by
  structural recursion on an explicit fuel argument; `group_paragraphs` passes
  fuel that provably suffices (the fixed point is reached, see claim C10), so
  the model computes exactly the loop's limit.
-/

structure Point where
  x : ℚ
  y : ℚ
deriving DecidableEq, Repr

/-- One OCR detection: `(bbox, text, score)` as consumed by `group_paragraphs`.
The `individual_items` entries of a paragraph have the same shape. -/
structure Detection where
  bbox : List Point
  text : String
  score : ℚ
deriving DecidableEq, Repr

/-- The record returned by `calculate_bbox_properties`. -/
structure BoxProps where
  center_x : ℚ
  center_y : ℚ
  left : ℚ
  right : ℚ
  top : ℚ
  bottom : ℚ
  width : ℚ
  height : ℚ
deriving DecidableEq, Repr

/-- Python `min` over the nonempty list `x :: xs`. -/
def pyMin (x : ℚ) (xs : List ℚ) : ℚ := xs.foldl min x

/-- Python `max` over the nonempty list `x :: xs`. -/
def pyMax (x : ℚ) (xs : List ℚ) : ℚ := xs.foldl max x

/-- Body of `calculate_bbox_properties` on a bbox with at least one point. -/
def bboxPropsCore (p : Point) (ps : List Point) : BoxProps :=
  let left := pyMin p.x (ps.map Point.x)
  let right := pyMax p.x (ps.map Point.x)
  let top := pyMin p.y (ps.map Point.y)
  let bottom := pyMax p.y (ps.map Point.y)
  { center_x := (left + right) / 2
    center_y := (top + bottom) / 2
    left := left
    right := right
    top := top
    bottom := bottom
    width := right - left
    height := bottom - top }

/-- `calculate_bbox_properties` (src/api/main.py:80-104).  On a bbox with no
points Python's `min([])` raises `ValueError`; that outcome is `none`. -/
def calculate_bbox_properties : List Point → Option BoxProps
  | [] => none
  | p :: ps => some (bboxPropsCore p ps)

/-- Total variant of `calculate_bbox_properties`, used only under the guard
that every bbox has at least one point (where it agrees with the source). -/
def propsD : List Point → BoxProps
  | [] => { center_x := 0, center_y := 0, left := 0, right := 0,
            top := 0, bottom := 0, width := 0, height := 0 }
  | p :: ps => bboxPropsCore p ps

/-- Squared center-to-center distance.  `calculate_distance`
(src/api/main.py:106-110) returns `math.sqrt` of this value; all of its uses
compare the square root against constants, which we express square-free. -/
def calculate_distance_sq (b1 b2 : BoxProps) : ℚ :=
  let dx := b1.center_x - b2.center_x
  let dy := b1.center_y - b2.center_y
  dx * dx + dy * dy

/-- `is_horizontally_aligned` (src/api/main.py:112-119). -/
def is_horizontally_aligned (b1 b2 : BoxProps) (tolerance_factor : ℚ) : Bool :=
  let overlap_top := max b1.top b2.top
  let overlap_bottom := min b1.bottom b2.bottom
  let overlap_height := max 0 (overlap_bottom - overlap_top)
  let min_height := min b1.height b2.height
  decide (overlap_height > min_height * tolerance_factor)

/-- `is_vertically_aligned` (src/api/main.py:121-128). -/
def is_vertically_aligned (b1 b2 : BoxProps) (tolerance_factor : ℚ) : Bool :=
  let overlap_left := max b1.left b2.left
  let overlap_right := min b1.right b2.right
  let overlap_width := max 0 (overlap_right - overlap_left)
  let min_width := min b1.width b2.width
  decide (overlap_width > min_width * tolerance_factor)

/-- `avg_size` as computed in `should_merge_bubbles` (src/api/main.py:132-134). -/
def avgSizeOf (b1 b2 : BoxProps) : ℚ :=
  ((b1.width + b2.width) / 2 + (b1.height + b2.height) / 2) / 2

/-- `sqrt d2 / avg_size > c`, square-free, valid when `avg_size > 0` and
`d2 ≥ 0`: the ratio is nonnegative, so the comparison holds iff `c < 0` or
`c² · avg_size² < d2`.  Proved equivalent to the real-valued comparison in
the theorem for claim C2. -/
def relDistGT (d2 avg_size c : ℚ) : Bool :=
  decide (c < 0) || decide (c ^ 2 * avg_size ^ 2 < d2)

/-- `sqrt d2 / avg_size < c`, square-free, valid when `avg_size > 0` and
`d2 ≥ 0`. -/
def relDistLT (d2 avg_size c : ℚ) : Bool :=
  decide (0 < c) && decide (d2 < c ^ 2 * avg_size ^ 2)

/-- `should_merge_bubbles` (src/api/main.py:130-151).  When `avg_size ≤ 0` the
source sets `relative_distance = float('inf')`, so the first test
`relative_distance > max_distance_factor` fires and the result is `False`. -/
def should_merge_bubbles (b1 b2 : BoxProps) (max_distance_factor : ℚ) : Bool :=
  let avg_size := avgSizeOf b1 b2
  let d2 := calculate_distance_sq b1 b2
  if 0 < avg_size then
    if relDistGT d2 avg_size max_distance_factor then false
    else
      let h_aligned := is_horizontally_aligned b1 b2 (3/10)
      let v_aligned := is_vertically_aligned b1 b2 (3/10)
      if relDistLT d2 avg_size (3/2) && (h_aligned || v_aligned) then true
      else if relDistLT d2 avg_size (4/5) then true
      else false
  else false

/-- The sort key of `manga_reading_order_sort`: `(center_y, -center_x)`. -/
def sortKey (b : BoxProps) : ℚ × ℚ := (b.center_y, -b.center_x)

/-- Lexicographic `≤` on sort keys, as Python compares key tuples. -/
def keyLE (p q : ℚ × ℚ) : Bool :=
  decide (p.1 < q.1) || (decide (p.1 = q.1) && decide (p.2 ≤ q.2))

/-- Key comparison on detections (recomputing the geometry, as the source's
sort key function does). -/
def detLE (d1 d2 : Detection) : Bool :=
  keyLE (sortKey (propsD d1.bbox)) (sortKey (propsD d2.bbox))

/-- Body of `manga_reading_order_sort`: Python `sorted` is a stable sort,
modelled by `List.mergeSort`. -/
def mangaSortCore (results : List Detection) : List Detection :=
  results.mergeSort detLE

/-- `manga_reading_order_sort` (src/api/main.py:153-160).  Computing the key of
a detection whose bbox has no points raises in Python (`min([])`): `none`. -/
def manga_reading_order_sort (results : List Detection) : Option (List Detection) :=
  if results.all (fun d => !d.bbox.isEmpty) then some (mangaSortCore results)
  else none

/-- One entry of `items_with_props` (src/api/main.py:195-204).  The mutable
`used` flag is represented by removing the item from the worklist instead. -/
structure Item where
  bbox : List Point
  text : String
  score : ℚ
  props : BoxProps
deriving DecidableEq, Repr

def toItem (d : Detection) : Item :=
  { bbox := d.bbox, text := d.text, score := d.score, props := propsD d.bbox }

def toDetection (it : Item) : Detection :=
  { bbox := it.bbox, text := it.text, score := it.score }

/-- Key comparison on items, using the stored `props` as the source's
`paragraph_items.sort(key=...)` does. -/
def itemLE (a b : Item) : Bool := keyLE (sortKey a.props) (sortKey b.props)

/-- The `any` over current cluster members (src/api/main.py:223-231); note the
argument order: the cluster member is the first argument. -/
def mergesWithCluster (mdf : ℚ) (cluster : List Item) (candidate : Item) : Bool :=
  cluster.any (fun para_item => should_merge_bubbles para_item.props candidate.props mdf)

/-- One full scan of the unused items (`for j, candidate_item in enumerate(...)`,
src/api/main.py:219-236).  Returns the grown cluster, the items left unused (in
order), and the `search_expanded` flag.  The cluster grows during the scan, so
a later candidate may merge against a member absorbed earlier in the same pass,
exactly as in the source. -/
def onePass (mdf : ℚ) (cluster : List Item) : List Item → List Item × List Item × Bool
  | [] => (cluster, [], false)
  | c :: rest =>
    if mergesWithCluster mdf cluster c then
      let r := onePass mdf (cluster ++ [c]) rest
      (r.1, r.2.1, true)
    else
      let r := onePass mdf cluster rest
      (r.1, c :: r.2.1, r.2.2)

/-- The `while search_expanded` loop (src/api/main.py:215-236), with explicit
fuel.  Each pass that sets the flag strictly shrinks the unused list, so fuel
`rem.length + 1` always reaches the fixed point (claim C10). -/
def expandLoop (mdf : ℚ) : Nat → List Item → List Item → List Item × List Item
  | 0, cluster, rem => (cluster, rem)
  | fuel + 1, cluster, rem =>
    let r := onePass mdf cluster rem
    if r.2.2 then expandLoop mdf fuel r.1 r.2.1 else (r.1, r.2.1)

/-- The outer seed loop (src/api/main.py:208-213): each unused item in order
seeds a cluster which is grown to its fixed point; fuel `items.length`
suffices since every cluster consumes at least its seed. -/
def buildClusters (mdf : ℚ) : Nat → List Item → List (List Item)
  | 0, _ => []
  | _ + 1, [] => []
  | fuel + 1, seed :: rest =>
    let r := expandLoop mdf (rest.length + 1) [seed] rest
    r.1 :: buildClusters mdf fuel r.2

/-- Output paragraph record (src/api/main.py:252-258). -/
structure Paragraph where
  text : String
  bbox : Option (List Point)
  score : ℚ
  item_count : Nat
  individual_items : List Detection
deriving DecidableEq, Repr

/-- `calculate_collective_bbox` (src/api/main.py:162-186).  `none` covers both
the explicit `return None` for an empty item list and the `min([])` error when
no member has any point. -/
def calculate_collective_bbox (paragraph_items : List Item) : Option (List Point) :=
  match paragraph_items.flatMap (fun it => it.bbox) with
  | [] => none
  | p :: ps =>
    let min_x := pyMin p.x (ps.map Point.x)
    let max_x := pyMax p.x (ps.map Point.x)
    let min_y := pyMin p.y (ps.map Point.y)
    let max_y := pyMax p.y (ps.map Point.y)
    some [⟨min_x, min_y⟩, ⟨max_x, min_y⟩, ⟨max_x, max_y⟩, ⟨min_x, max_y⟩]

/-- Reduction of a closed cluster to a paragraph (src/api/main.py:238-258):
in-place stable sort by `(center_y, -center_x)`, text join with single spaces,
collective bbox, mean score. -/
def buildParagraph (cluster : List Item) : Paragraph :=
  let sorted := cluster.mergeSort itemLE
  { text := String.intercalate " " (sorted.map Item.text)
    bbox := calculate_collective_bbox sorted
    score := (sorted.map Item.score).sum / (sorted.length : ℚ)
    item_count := sorted.length
    individual_items := sorted.map toDetection }

/-- `group_paragraphs` (src/api/main.py:188-262).  A detection whose bbox has
no points makes the source raise inside `calculate_bbox_properties`: `none`.
The empty input yields `some []` (`if not results: return []`). -/
def group_paragraphs (results : List Detection) (max_distance_factor : ℚ) :
    Option (List Paragraph) :=
  if results.all (fun d => !d.bbox.isEmpty) then
    let sorted := mangaSortCore results
    let items := sorted.map toItem
    some ((buildClusters max_distance_factor items.length items).map buildParagraph)
  else none

/--
The decision table of spec §4.3, read literally over the real numbers:
`relative_distance = euclidean(center1, center2) / avg_size` when
`avg_size > 0` (and infinite otherwise, so that the first row fires and the
verdict is "no merge").  The rows in order: `relative_distance >
max_distance_factor ⇒ no merge`; `relative_distance < 1.5` and aligned `⇒
merge`; `relative_distance < 0.8 ⇒ merge`; otherwise no merge.  Because both
"merge" rows are positive, first-match-wins order is equivalent to negating
row one and disjoining rows two and three, which is how it is written here. -/
def mergeDecisionTableSpec (b1 b2 : BoxProps) (mdf : ℚ) : Prop :=
  0 < avgSizeOf b1 b2 ∧
  ¬ ((mdf : ℝ) <
      Real.sqrt ((calculate_distance_sq b1 b2 : ℚ) : ℝ) / ((avgSizeOf b1 b2 : ℚ) : ℝ)) ∧
  ((Real.sqrt ((calculate_distance_sq b1 b2 : ℚ) : ℝ) / ((avgSizeOf b1 b2 : ℚ) : ℝ) < 3/2 ∧
      (is_horizontally_aligned b1 b2 (3/10) || is_vertically_aligned b1 b2 (3/10)) = true) ∨
    Real.sqrt ((calculate_distance_sq b1 b2 : ℚ) : ℝ) / ((avgSizeOf b1 b2 : ℚ) : ℝ) < 4/5)

/-- Scenario A detection `D1` (spec §8). -/
def scenarioDetA : Detection :=
  { bbox := [⟨0,0⟩, ⟨10,0⟩, ⟨10,10⟩, ⟨0,10⟩], text := "A", score := 9/10 }

/-- Scenario A detection `D2` (spec §8). -/
def scenarioDetB : Detection :=
  { bbox := [⟨12,0⟩, ⟨22,0⟩, ⟨22,10⟩, ⟨12,10⟩], text := "B", score := 8/10 }

/-- The paragraph that Scenario A is expected to produce. -/
def scenarioParagraph : Paragraph :=
  { text := "B A"
    bbox := some [⟨0,0⟩, ⟨22,0⟩, ⟨22,10⟩, ⟨0,10⟩]
    score := 17/20
    item_count := 2
    individual_items := [scenarioDetB, scenarioDetA] }

/-- Counterexample input for the re-grouping idempotence claim (C3).  The two
detections `t` (a zero-size box) and `tp` share the same center `(17/5, 7/5)`,
hence the same sort key; `t` is reachable only through the late-arriving tall
box `m1`, while `tp` is reachable through `m`, whose own absorption pass
shifts between the two runs because the tied pair `u1`/`u2` is re-ordered by
the first run's output. -/
def cexDetW : Detection :=
  { bbox := [⟨-21/10,-43/10⟩, ⟨-11/10,-43/10⟩, ⟨-11/10,-3/10⟩, ⟨-21/10,-3/10⟩]
    text := "w", score := 1/2 }

def cexDetM1 : Detection :=
  { bbox := [⟨5/2,-18/5⟩, ⟨7/2,-18/5⟩, ⟨7/2,17/5⟩, ⟨5/2,17/5⟩]
    text := "m1", score := 1/2 }

def cexDetU2 : Detection :=
  { bbox := [⟨-1,-1/2⟩, ⟨1,-1/2⟩, ⟨1,1/2⟩, ⟨-1,1/2⟩]
    text := "u2", score := 1/2 }

def cexDetU1 : Detection :=
  { bbox := [⟨-1/2,-1⟩, ⟨1/2,-1⟩, ⟨1/2,1⟩, ⟨-1/2,1⟩]
    text := "u1", score := 1/2 }

def cexDetM : Detection :=
  { bbox := [⟨3/10,4/5⟩, ⟨43/10,4/5⟩, ⟨43/10,9/5⟩, ⟨3/10,9/5⟩]
    text := "m", score := 1/2 }

def cexDetT : Detection :=
  { bbox := [⟨17/5,7/5⟩, ⟨17/5,7/5⟩, ⟨17/5,7/5⟩, ⟨17/5,7/5⟩]
    text := "t", score := 1/2 }

def cexDetTP : Detection :=
  { bbox := [⟨29/10,9/10⟩, ⟨39/10,9/10⟩, ⟨39/10,19/10⟩, ⟨29/10,19/10⟩]
    text := "tp", score := 1/2 }

def cexDets : List Detection :=
  [cexDetW, cexDetM1, cexDetU2, cexDetU1, cexDetM, cexDetT, cexDetTP]

/-- The single paragraph the first run produces on `cexDets`. -/
def cexPara1 : Paragraph :=
  { text := "w m1 u1 u2 m t tp"
    bbox := some [⟨-21/10,-43/10⟩, ⟨43/10,-43/10⟩, ⟨43/10,17/5⟩, ⟨-21/10,17/5⟩]
    score := 1/2
    item_count := 7
    individual_items :=
      [cexDetW, cexDetM1, cexDetU1, cexDetU2, cexDetM, cexDetT, cexDetTP] }

/-- The single paragraph the second run produces on the flattened output:
`t` and `tp` have swapped places, so the text differs. -/
def cexPara2 : Paragraph :=
  { text := "w m1 u1 u2 m tp t"
    bbox := some [⟨-21/10,-43/10⟩, ⟨43/10,-43/10⟩, ⟨43/10,17/5⟩, ⟨-21/10,17/5⟩]
    score := 1/2
    item_count := 7
    individual_items :=
      [cexDetW, cexDetM1, cexDetU1, cexDetU2, cexDetM, cexDetTP, cexDetT] }

/-! ### Basic arithmetic lemmas about the embedded operations -/

theorem calculate_distance_sq_nonneg (b1 b2 : BoxProps) :
    0 ≤ calculate_distance_sq b1 b2 := by
  simp only [calculate_distance_sq]
  exact add_nonneg (mul_self_nonneg _) (mul_self_nonneg _)

theorem calculate_distance_sq_comm (b1 b2 : BoxProps) :
    calculate_distance_sq b1 b2 = calculate_distance_sq b2 b1 := by
  simp only [calculate_distance_sq]
  ring

theorem avgSizeOf_comm (b1 b2 : BoxProps) : avgSizeOf b1 b2 = avgSizeOf b2 b1 := by
  simp only [avgSizeOf]
  ring

theorem is_horizontally_aligned_comm (b1 b2 : BoxProps) (t : ℚ) :
    is_horizontally_aligned b1 b2 t = is_horizontally_aligned b2 b1 t := by
  simp only [is_horizontally_aligned]
  rw [max_comm b1.top b2.top, min_comm b1.bottom b2.bottom, min_comm b1.height b2.height]

theorem is_vertically_aligned_comm (b1 b2 : BoxProps) (t : ℚ) :
    is_vertically_aligned b1 b2 t = is_vertically_aligned b2 b1 t := by
  simp only [is_vertically_aligned]
  rw [max_comm b1.left b2.left, min_comm b1.right b2.right, min_comm b1.width b2.width]

/-- `relDistGT` agrees with the real-valued comparison
`relative_distance > c` when `avg > 0` and `d2 ≥ 0`. -/
theorem relDistGT_iff (d2 avg c : ℚ) (havg : 0 < avg) (hd2 : 0 ≤ d2) :
    relDistGT d2 avg c = true ↔
      (c : ℝ) < Real.sqrt ((d2 : ℚ) : ℝ) / ((avg : ℚ) : ℝ) := by
  have havgR : (0 : ℝ) < (avg : ℝ) := by exact_mod_cast havg
  have hd2R : (0 : ℝ) ≤ (d2 : ℝ) := by exact_mod_cast hd2
  rw [lt_div_iff₀ havgR]
  rcases lt_or_le c 0 with hc | hc
  · have hcR : ((c : ℝ)) < 0 := by exact_mod_cast hc
    simp only [relDistGT, hc, decide_True, Bool.true_or, true_iff]
    calc (c : ℝ) * avg < 0 := mul_neg_of_neg_of_pos hcR havgR
    _ ≤ Real.sqrt (d2 : ℝ) := Real.sqrt_nonneg _
  · have hcR : (0 : ℝ) ≤ (c : ℝ) := by exact_mod_cast hc
    rw [Real.lt_sqrt (mul_nonneg hcR havgR.le)]
    have : ((c : ℝ) * avg) ^ 2 = (((c ^ 2 * avg ^ 2 : ℚ) : ℝ)) := by push_cast; ring
    rw [this]
    simp only [relDistGT, Bool.or_eq_true, decide_eq_true_eq]
    constructor
    · rintro (h | h)
      · exact absurd h (not_lt.mpr hc)
      · exact_mod_cast h
    · intro h
      exact Or.inr (by exact_mod_cast h)

/-- `relDistLT` agrees with the real-valued comparison
`relative_distance < c` when `avg > 0` and `d2 ≥ 0`. -/
theorem relDistLT_iff (d2 avg c : ℚ) (havg : 0 < avg) :
    relDistLT d2 avg c = true ↔
      Real.sqrt ((d2 : ℚ) : ℝ) / ((avg : ℚ) : ℝ) < (c : ℝ) := by
  have havgR : (0 : ℝ) < (avg : ℝ) := by exact_mod_cast havg
  rw [div_lt_iff₀ havgR]
  rcases le_or_lt c 0 with hc | hc
  · have hcR : ((c : ℝ)) ≤ 0 := by exact_mod_cast hc
    simp only [relDistLT, not_lt.mpr hc, decide_False, Bool.false_and,
      Bool.false_eq_true, false_iff, not_lt]
    calc (c : ℝ) * avg ≤ 0 := mul_nonpos_of_nonpos_of_nonneg hcR havgR.le
    _ ≤ Real.sqrt (d2 : ℝ) := Real.sqrt_nonneg _
  · have hcR : (0 : ℝ) < (c : ℝ) := by exact_mod_cast hc
    rw [Real.sqrt_lt' (mul_pos hcR havgR)]
    have : ((c : ℝ) * avg) ^ 2 = (((c ^ 2 * avg ^ 2 : ℚ) : ℝ)) := by push_cast; ring
    rw [this]
    simp only [relDistLT, hc, decide_True, Bool.true_and, decide_eq_true_eq]
    exact ⟨fun h => by exact_mod_cast h, fun h => by exact_mod_cast h⟩

/-! ### Claim C2: the merge decision matches the spec's decision table -/

/-- C2: for every pair of rectangle property records and every
`max_distance_factor`, the merge decision of `should_merge_bubbles` equals the
spec's decision table over the reals, with `relative_distance` infinite (hence
no merge) when `avg_size ≤ 0`; in particular two zero-size rectangles never
merge even when their centers coincide. -/
theorem should_merge_bubbles_matches_decision_table (b1 b2 : BoxProps) (mdf : ℚ) :
    should_merge_bubbles b1 b2 mdf = true ↔ mergeDecisionTableSpec b1 b2 mdf := by
  by_cases havg : 0 < avgSizeOf b1 b2
  · have hd2 : 0 ≤ calculate_distance_sq b1 b2 := calculate_distance_sq_nonneg b1 b2
    simp only [should_merge_bubbles, mergeDecisionTableSpec, if_pos havg, havg, true_and]
    rw [show ((3:ℝ)/2) = (((3/2 : ℚ) : ℝ)) by norm_num,
        show ((4:ℝ)/5) = (((4/5 : ℚ) : ℝ)) by norm_num]
    rw [← relDistGT_iff _ _ _ havg hd2, ← relDistLT_iff _ _ (3/2) havg,
        ← relDistLT_iff _ _ (4/5) havg]
    cases hGT : relDistGT (calculate_distance_sq b1 b2) (avgSizeOf b1 b2) mdf <;>
    cases h32 : relDistLT (calculate_distance_sq b1 b2) (avgSizeOf b1 b2) (3/2) <;>
    cases hAl : (is_horizontally_aligned b1 b2 (3/10) || is_vertically_aligned b1 b2 (3/10)) <;>
    cases h45 : relDistLT (calculate_distance_sq b1 b2) (avgSizeOf b1 b2) (4/5) <;>
    simp_all
  · simp only [should_merge_bubbles, mergeDecisionTableSpec, if_neg havg,
      Bool.false_eq_true, false_iff, not_and]
    intro h
    exact absurd h havg

/-! ### Claim C9: the merge decision is commutative -/

/-- C9: `should_merge_bubbles(p1, p2, f) = should_merge_bubbles(p2, p1, f)` for
every pair of rectangle property records and every `max_distance_factor`. -/
theorem should_merge_bubbles_comm (b1 b2 : BoxProps) (mdf : ℚ) :
    should_merge_bubbles b1 b2 mdf = should_merge_bubbles b2 b1 mdf := by
  simp only [should_merge_bubbles]
  rw [avgSizeOf_comm b1 b2, calculate_distance_sq_comm b1 b2,
      is_horizontally_aligned_comm b1 b2, is_vertically_aligned_comm b1 b2]

/-! ### Claim C5: the two-detection merge scenario -/

/-- C5: on `D1 = {bbox [(0,0),(10,0),(10,10),(0,10)], "A", 0.9}` and
`D2 = {bbox [(12,0),(22,0),(22,10),(12,10)], "B", 0.8}`, `group_paragraphs`
returns exactly one paragraph with text `"B A"`, the axis-aligned collective
bbox with corners `(0,0)` and `(22,10)`, score `0.85`, and `item_count 2`. -/
theorem group_paragraphs_scenario_merge :
    group_paragraphs
      [{ bbox := [⟨0,0⟩, ⟨10,0⟩, ⟨10,10⟩, ⟨0,10⟩], text := "A", score := 9/10 },
       { bbox := [⟨12,0⟩, ⟨22,0⟩, ⟨22,10⟩, ⟨12,10⟩], text := "B", score := 8/10 }] 2 =
      some [{ text := "B A"
              bbox := some [⟨0,0⟩, ⟨22,0⟩, ⟨22,10⟩, ⟨0,10⟩]
              score := 17/20
              item_count := 2
              individual_items :=
                [{ bbox := [⟨12,0⟩, ⟨22,0⟩, ⟨22,10⟩, ⟨12,10⟩], text := "B", score := 8/10 },
                 { bbox := [⟨0,0⟩, ⟨10,0⟩, ⟨10,10⟩, ⟨0,10⟩], text := "A", score := 9/10 }] }] := by
  with_unfolding_all decide

/-! ### Claim C8: no validation happens before geometry derivation -/

/-- C8 (failing input): the source performs no bbox validation.  A bbox that
does not resolve to four coordinate pairs — here three points — is not
rejected: `calculate_bbox_properties` happily derives its geometry instead of
raising a `ValidationError`. -/
theorem calculate_bbox_properties_no_validation :
    calculate_bbox_properties [⟨0,0⟩, ⟨1,0⟩, ⟨1,1⟩] =
      some { center_x := 1/2, center_y := 1/2, left := 0, right := 1,
             top := 0, bottom := 1, width := 1, height := 1 } := by
  with_unfolding_all decide

/-! ### Structural lemmas about the clustering loops -/

/-- A pass preserves the multiset of items: grown cluster plus leftover
worklist is a permutation of the initial cluster plus worklist. -/
theorem onePass_append_perm (mdf : ℚ) (cluster rem : List Item) :
    List.Perm ((onePass mdf cluster rem).1 ++ (onePass mdf cluster rem).2.1)
      (cluster ++ rem) := by
  induction rem generalizing cluster with
  | nil => simp [onePass]
  | cons c rest ih =>
    simp only [onePass]
    by_cases h : mergesWithCluster mdf cluster c
    · simp only [h, if_true]
      exact (ih (cluster ++ [c])).trans (List.Perm.of_eq (by simp))
    · simp only [h, Bool.false_eq_true, if_false]
      refine List.perm_middle.trans (List.Perm.trans ?_ List.perm_middle.symm)
      exact (ih cluster).cons c

/-- A pass never grows the worklist. -/
theorem onePass_rem_length_le (mdf : ℚ) (cluster rem : List Item) :
    (onePass mdf cluster rem).2.1.length ≤ rem.length := by
  induction rem generalizing cluster with
  | nil => simp [onePass]
  | cons c rest ih =>
    simp only [onePass]
    by_cases h : mergesWithCluster mdf cluster c
    · simp only [h, if_true]
      exact le_trans (ih (cluster ++ [c])) (Nat.le_succ _)
    · simp only [h, Bool.false_eq_true, if_false, List.length_cons]
      exact Nat.succ_le_succ (ih cluster)

/-- A pass that set `search_expanded` absorbed at least one item: the worklist
strictly shrinks. -/
theorem onePass_expanded_lt (mdf : ℚ) (cluster rem : List Item)
    (h : (onePass mdf cluster rem).2.2 = true) :
    (onePass mdf cluster rem).2.1.length < rem.length := by
  induction rem generalizing cluster with
  | nil => simp [onePass] at h
  | cons c rest ih =>
    simp only [onePass] at h ⊢
    by_cases hm : mergesWithCluster mdf cluster c
    · simp only [hm, if_true]
      exact Nat.lt_succ_of_le (onePass_rem_length_le mdf (cluster ++ [c]) rest)
    · simp only [hm, Bool.false_eq_true, if_false] at h ⊢
      simp only [List.length_cons]
      exact Nat.succ_lt_succ (ih cluster h)

/-- A pass that did not set `search_expanded` changed nothing. -/
theorem onePass_not_expanded (mdf : ℚ) (cluster rem : List Item)
    (h : (onePass mdf cluster rem).2.2 = false) :
    (onePass mdf cluster rem).1 = cluster ∧ (onePass mdf cluster rem).2.1 = rem := by
  induction rem generalizing cluster with
  | nil => simp [onePass]
  | cons c rest ih =>
    simp only [onePass] at h ⊢
    by_cases hm : mergesWithCluster mdf cluster c
    · simp [hm] at h
    · simp only [hm, Bool.false_eq_true, if_false] at h ⊢
      obtain ⟨h1, h2⟩ := ih cluster h
      exact ⟨h1, by rw [h2]⟩

/-- A pass only appends to the cluster. -/
theorem onePass_cluster_extends (mdf : ℚ) (cluster rem : List Item) :
    ∃ e, (onePass mdf cluster rem).1 = cluster ++ e := by
  induction rem generalizing cluster with
  | nil => exact ⟨[], by simp [onePass]⟩
  | cons c rest ih =>
    simp only [onePass]
    by_cases h : mergesWithCluster mdf cluster c
    · simp only [h, if_true]
      obtain ⟨e, he⟩ := ih (cluster ++ [c])
      exact ⟨c :: e, by simpa using he⟩
    · simp only [h, Bool.false_eq_true, if_false]
      exact ih cluster

/-- The relaxation loop preserves the multiset of items. -/
theorem expandLoop_append_perm (mdf : ℚ) (fuel : Nat) (cluster rem : List Item) :
    List.Perm ((expandLoop mdf fuel cluster rem).1 ++ (expandLoop mdf fuel cluster rem).2)
      (cluster ++ rem) := by
  induction fuel generalizing cluster rem with
  | zero => simp [expandLoop]
  | succ fuel ih =>
    simp only [expandLoop]
    by_cases h : (onePass mdf cluster rem).2.2
    · simp only [h, if_true]
      exact (ih _ _).trans (onePass_append_perm mdf cluster rem)
    · simp only [h, Bool.false_eq_true, if_false]
      exact onePass_append_perm mdf cluster rem

/-- The relaxation loop never grows the worklist. -/
theorem expandLoop_rem_length_le (mdf : ℚ) (fuel : Nat) (cluster rem : List Item) :
    (expandLoop mdf fuel cluster rem).2.length ≤ rem.length := by
  induction fuel generalizing cluster rem with
  | zero => simp [expandLoop]
  | succ fuel ih =>
    simp only [expandLoop]
    by_cases h : (onePass mdf cluster rem).2.2
    · simp only [h, if_true]
      exact le_trans (ih _ _) (onePass_rem_length_le mdf cluster rem)
    · simp only [h, Bool.false_eq_true, if_false]
      exact onePass_rem_length_le mdf cluster rem

/-- The relaxation loop only appends to the cluster. -/
theorem expandLoop_cluster_extends (mdf : ℚ) (fuel : Nat) (cluster rem : List Item) :
    ∃ e, (expandLoop mdf fuel cluster rem).1 = cluster ++ e := by
  induction fuel generalizing cluster rem with
  | zero => exact ⟨[], by simp [expandLoop]⟩
  | succ fuel ih =>
    simp only [expandLoop]
    by_cases h : (onePass mdf cluster rem).2.2
    · simp only [h, if_true]
      obtain ⟨e1, he1⟩ := onePass_cluster_extends mdf cluster rem
      obtain ⟨e2, he2⟩ := ih (onePass mdf cluster rem).1 (onePass mdf cluster rem).2.1
      exact ⟨e1 ++ e2, by rw [he2, he1, List.append_assoc]⟩
    · simp only [h, Bool.false_eq_true, if_false]
      exact onePass_cluster_extends mdf cluster rem

/-- With fuel exceeding the worklist length the relaxation loop reaches a true
fixed point: running one more pass on its result changes nothing and does not
set `search_expanded`.  This is exactly the reason the source's `while` loop
terminates. -/
theorem expandLoop_fixed_point (mdf : ℚ) (fuel : Nat) :
    ∀ cluster rem : List Item, rem.length < fuel →
      onePass mdf (expandLoop mdf fuel cluster rem).1 (expandLoop mdf fuel cluster rem).2 =
        ((expandLoop mdf fuel cluster rem).1, (expandLoop mdf fuel cluster rem).2, false) := by
  induction fuel with
  | zero => exact fun cluster rem h => absurd h (Nat.not_lt_zero _)
  | succ fuel ih =>
    intro cluster rem hlen
    simp only [expandLoop]
    by_cases h : (onePass mdf cluster rem).2.2
    · simp only [h, if_true]
      exact ih _ _ (lt_of_lt_of_le (onePass_expanded_lt mdf cluster rem h)
        (Nat.lt_succ_iff.mp hlen))
    · simp only [h, Bool.false_eq_true, if_false]
      obtain ⟨h1, h2⟩ :=
        onePass_not_expanded mdf cluster rem (Bool.not_eq_true _ ▸ h)
      rw [h1, h2]
      have : (onePass mdf cluster rem).2.2 = false := by
        simpa using h
      calc onePass mdf cluster rem
          = ((onePass mdf cluster rem).1,
             (onePass mdf cluster rem).2.1, (onePass mdf cluster rem).2.2) := rfl
        _ = (cluster, rem, false) := by rw [h1, h2, this]

/-- Every cluster built by the outer loop is a permutation-preserving split:
the concatenation of all clusters is a permutation of the processed items. -/
theorem buildClusters_flatten_perm (mdf : ℚ) :
    ∀ (fuel : Nat) (items : List Item), items.length ≤ fuel →
      List.Perm (buildClusters mdf fuel items).flatten items := by
  intro fuel
  induction fuel with
  | zero =>
    intro items h
    rw [List.length_eq_zero.mp (Nat.le_zero.mp h)]
    simp [buildClusters]
  | succ fuel ih =>
    intro items h
    match items with
    | [] => simp [buildClusters]
    | seed :: rest =>
      simp only [buildClusters, List.flatten_cons]
      have hrest : rest.length ≤ fuel := by simpa using h
      have hrem : (expandLoop mdf (rest.length + 1) [seed] rest).2.length ≤ fuel :=
        le_trans (expandLoop_rem_length_le mdf _ _ _) hrest
      refine List.Perm.trans (List.Perm.append_left _ (ih _ hrem)) ?_
      exact expandLoop_append_perm mdf (rest.length + 1) [seed] rest

/-- Every cluster built by the outer loop is nonempty (it contains its seed). -/
theorem buildClusters_ne_nil (mdf : ℚ) :
    ∀ (fuel : Nat) (items cl : List Item), cl ∈ buildClusters mdf fuel items → cl ≠ [] := by
  intro fuel
  induction fuel with
  | zero => intro items cl h; simp [buildClusters] at h
  | succ fuel ih =>
    intro items cl h
    match items with
    | [] => simp [buildClusters] at h
    | seed :: rest =>
      simp only [buildClusters, List.mem_cons] at h
      rcases h with h | h
      · obtain ⟨e, he⟩ := expandLoop_cluster_extends mdf (rest.length + 1) [seed] rest
        rw [h, he]
        simp
      · exact ih _ _ h

/-- Every member of every built cluster comes from the processed item list. -/
theorem buildClusters_mem_subset (mdf : ℚ) (fuel : Nat) (items : List Item)
    (hfuel : items.length ≤ fuel) (cl : List Item) (hcl : cl ∈ buildClusters mdf fuel items)
    (it : Item) (hit : it ∈ cl) : it ∈ items := by
  have hmem : it ∈ (buildClusters mdf fuel items).flatten ↔ it ∈ items :=
    (buildClusters_flatten_perm mdf fuel items hfuel).mem_iff
  exact hmem.mp (List.mem_flatten.mpr ⟨cl, hcl, hit⟩)

/-! ### Claim C10: termination of the fixed-point loop -/

/-- C10: each pass of the inner fixed-point loop either absorbs at least one
unvisited detection (strictly shrinking the unvisited worklist) or is the
final pass (changing nothing); consequently the fuel `rem.length + 1` that
`group_paragraphs` supplies reaches a true fixed point — one further pass
changes nothing and clears `search_expanded`, which is exactly the condition
under which the source's `while` loop exits. -/
theorem group_paragraphs_loop_terminates (mdf : ℚ) (cluster rem : List Item) :
    ((onePass mdf cluster rem).2.2 = true →
       (onePass mdf cluster rem).2.1.length < rem.length) ∧
    ((onePass mdf cluster rem).2.2 = false →
       onePass mdf cluster rem = (cluster, rem, false)) ∧
    onePass mdf (expandLoop mdf (rem.length + 1) cluster rem).1
        (expandLoop mdf (rem.length + 1) cluster rem).2 =
      ((expandLoop mdf (rem.length + 1) cluster rem).1,
       (expandLoop mdf (rem.length + 1) cluster rem).2, false) := by
  refine ⟨onePass_expanded_lt mdf cluster rem, ?_,
    expandLoop_fixed_point mdf _ cluster rem (Nat.lt_succ_self _)⟩
  intro h
  obtain ⟨h1, h2⟩ := onePass_not_expanded mdf cluster rem h
  calc onePass mdf cluster rem
      = ((onePass mdf cluster rem).1,
         (onePass mdf cluster rem).2.1, (onePass mdf cluster rem).2.2) := rfl
    _ = (cluster, rem, false) := by rw [h1, h2, h]

/-- Witness for C10 at a concrete input: a pass that absorbs the candidate
(the two mergeable boxes of Scenario A) strictly shrinks the worklist. -/
theorem group_paragraphs_loop_terminates_witness :
    (onePass 2 [toItem { bbox := [⟨0,0⟩, ⟨10,0⟩, ⟨10,10⟩, ⟨0,10⟩], text := "A", score := 9/10 }]
        [toItem { bbox := [⟨12,0⟩, ⟨22,0⟩, ⟨22,10⟩, ⟨12,10⟩], text := "B", score := 8/10 }]).2.1.length
      < 1 :=
  (group_paragraphs_loop_terminates 2 _ _).1 (by with_unfolding_all decide)

/-! ### Claim C1: the output paragraphs partition the input detections -/

theorem map_toItem_toDetection : ∀ l : List Detection, (l.map toItem).map toDetection = l := by
  intro l
  induction l with
  | nil => rfl
  | cons d rest ih => simp [ih, toItem, toDetection]

/-- Pointwise permutations lift to flattened maps. -/
theorem flatten_map_perm_of_perm {α β : Type} (L : List (List α)) (f g : List α → List β)
    (h : ∀ l ∈ L, List.Perm (f l) (g l)) :
    List.Perm (L.map f).flatten (L.map g).flatten := by
  induction L with
  | nil => simp
  | cons l L ih =>
    simp only [List.map_cons, List.flatten_cons]
    exact (h l (List.mem_cons_self l L)).append
      (ih fun l' hl' => h l' (List.mem_cons_of_mem _ hl'))

/-- Shared partition lemma: the concatenation of `individual_items` across
the returned paragraphs is a permutation of the input list. -/
theorem group_paragraphs_flatMap_perm (results : List Detection) (mdf : ℚ)
    (ps : List Paragraph) (h : group_paragraphs results mdf = some ps) :
    List.Perm (ps.flatMap Paragraph.individual_items) results := by
  unfold group_paragraphs at h
  by_cases hg : results.all (fun d => !d.bbox.isEmpty)
  · rw [if_pos hg] at h
    replace h := (Option.some.inj h).symm
    subst h
    have step1 : ((buildClusters mdf ((mangaSortCore results).map toItem).length
          ((mangaSortCore results).map toItem)).map buildParagraph).flatMap
            Paragraph.individual_items
        = ((buildClusters mdf ((mangaSortCore results).map toItem).length
          ((mangaSortCore results).map toItem)).map
            (fun cl => (cl.mergeSort itemLE).map toDetection)).flatten := by
      simp only [List.flatMap, List.map_map]
      rfl
    rw [step1]
    refine List.Perm.trans
      (flatten_map_perm_of_perm _ _ (fun cl => cl.map toDetection)
        (fun cl _ => (List.mergeSort_perm cl itemLE).map toDetection)) ?_
    rw [← List.map_flatten]
    refine List.Perm.trans
      ((buildClusters_flatten_perm mdf _ _ (le_refl _)).map toDetection) ?_
    rw [map_toItem_toDetection]
    exact List.mergeSort_perm results detLE
  · rw [if_neg hg] at h
    exact absurd h (by simp)

/-- C1: for every input detection list accepted by the pipeline, the
concatenation of `individual_items` across all returned paragraphs is a
permutation of the input list — every detection lands in exactly one
paragraph, exactly once. -/
theorem group_paragraphs_partition (results : List Detection) (mdf : ℚ)
    (ps : List Paragraph) (h : group_paragraphs results mdf = some ps) :
    List.Perm (ps.flatMap Paragraph.individual_items) results :=
  group_paragraphs_flatMap_perm results mdf ps h

/-- Witness for C1 at the concrete Scenario-A input. -/
theorem group_paragraphs_partition_witness :
    List.Perm
      (([{ text := "B A"
           bbox := some [⟨0,0⟩, ⟨22,0⟩, ⟨22,10⟩, ⟨0,10⟩]
           score := 17/20
           item_count := 2
           individual_items :=
             [{ bbox := [⟨12,0⟩, ⟨22,0⟩, ⟨22,10⟩, ⟨12,10⟩], text := "B", score := 8/10 },
              { bbox := [⟨0,0⟩, ⟨10,0⟩, ⟨10,10⟩, ⟨0,10⟩], text := "A", score := 9/10 }] }] :
          List Paragraph).flatMap Paragraph.individual_items)
      [{ bbox := [⟨0,0⟩, ⟨10,0⟩, ⟨10,10⟩, ⟨0,10⟩], text := "A", score := 9/10 },
       { bbox := [⟨12,0⟩, ⟨22,0⟩, ⟨22,10⟩, ⟨12,10⟩], text := "B", score := 8/10 }] :=
  group_paragraphs_partition _ 2 _ (by with_unfolding_all decide)

/-! ### Claim C6: the collective bbox encloses every member corner -/

/-- Python `min` over a nonempty list bounds every element from below. -/
theorem pyMin_le (x : ℚ) (xs : List ℚ) : ∀ a ∈ x :: xs, pyMin x xs ≤ a := by
  induction xs generalizing x with
  | nil => simp [pyMin]
  | cons y ys ih =>
    intro a ha
    have step : pyMin x (y :: ys) = pyMin (min x y) ys := by
      simp [pyMin]
    have hmin : ∀ b ∈ min x y :: ys, pyMin (min x y) ys ≤ b := ih (min x y)
    have hhead : pyMin (min x y) ys ≤ min x y := hmin _ (List.mem_cons_self _ _)
    rw [step]
    rcases List.mem_cons.mp ha with h | h
    · subst h
      exact le_trans hhead (min_le_left _ _)
    · rcases List.mem_cons.mp h with h2 | h2
      · subst h2
        exact le_trans hhead (min_le_right _ _)
      · exact hmin a (List.mem_cons_of_mem _ h2)

/-- Python `max` over a nonempty list bounds every element from above. -/
theorem le_pyMax (x : ℚ) (xs : List ℚ) : ∀ a ∈ x :: xs, a ≤ pyMax x xs := by
  induction xs generalizing x with
  | nil => simp [pyMax]
  | cons y ys ih =>
    intro a ha
    have step : pyMax x (y :: ys) = pyMax (max x y) ys := by
      simp [pyMax]
    have hmax : ∀ b ∈ max x y :: ys, b ≤ pyMax (max x y) ys := ih (max x y)
    have hhead : max x y ≤ pyMax (max x y) ys := hmax _ (List.mem_cons_self _ _)
    rw [step]
    rcases List.mem_cons.mp ha with h | h
    · subst h
      exact le_trans (le_max_left _ _) hhead
    · rcases List.mem_cons.mp h with h2 | h2
      · subst h2
        exact le_trans (le_max_right _ _) hhead
      · exact hmax a (List.mem_cons_of_mem _ h2)

/-- When some member has a point, `calculate_collective_bbox` returns the
axis-aligned rectangle of the extreme coordinates, and it encloses every point
of every member. -/
theorem calculate_collective_bbox_bounds (paragraph_items : List Item)
    (q : List Point) (hq : calculate_collective_bbox paragraph_items = some q) :
    ∃ mnx mxx mny mxy,
      q = [⟨mnx, mny⟩, ⟨mxx, mny⟩, ⟨mxx, mxy⟩, ⟨mnx, mxy⟩] ∧
      ∀ it ∈ paragraph_items, ∀ pt ∈ it.bbox,
        mnx ≤ pt.x ∧ pt.x ≤ mxx ∧ mny ≤ pt.y ∧ pt.y ≤ mxy := by
  unfold calculate_collective_bbox at hq
  cases hflat : paragraph_items.flatMap (fun it => it.bbox) with
  | nil => rw [hflat] at hq; exact absurd hq (by simp)
  | cons p pts =>
    rw [hflat] at hq
    refine ⟨pyMin p.x (pts.map Point.x), pyMax p.x (pts.map Point.x),
            pyMin p.y (pts.map Point.y), pyMax p.y (pts.map Point.y),
            (Option.some.inj hq).symm, ?_⟩
    intro it hit pt hpt
    have hmem : pt ∈ p :: pts := by
      rw [← hflat]
      exact List.mem_flatMap.mpr ⟨it, hit, hpt⟩
    have hx : pt.x ∈ p.x :: pts.map Point.x := by
      rcases List.mem_cons.mp hmem with rfl | hmem
      · exact List.mem_cons_self _ _
      · exact List.mem_cons_of_mem _ (List.mem_map_of_mem Point.x hmem)
    have hy : pt.y ∈ p.y :: pts.map Point.y := by
      rcases List.mem_cons.mp hmem with rfl | hmem
      · exact List.mem_cons_self _ _
      · exact List.mem_cons_of_mem _ (List.mem_map_of_mem Point.y hmem)
    exact ⟨pyMin_le _ _ _ hx, le_pyMax _ _ _ hx, pyMin_le _ _ _ hy, le_pyMax _ _ _ hy⟩

/-- `calculate_collective_bbox` succeeds on a nonempty cluster of items whose
bboxes are all nonempty. -/
theorem calculate_collective_bbox_isSome (items : List Item) (hne : items ≠ [])
    (hbb : ∀ it ∈ items, it.bbox ≠ []) :
    ∃ q, calculate_collective_bbox items = some q := by
  unfold calculate_collective_bbox
  cases hflat : items.flatMap (fun it => it.bbox) with
  | nil =>
    rcases items with _ | ⟨it0, rest⟩
    · exact absurd rfl hne
    · exact absurd (List.flatMap_eq_nil_iff.mp hflat it0 (List.mem_cons_self _ _))
        (hbb it0 (List.mem_cons_self _ _))
  | cons p pts => exact ⟨_, rfl⟩

/-- The input guard of `group_paragraphs`, unpacked. -/
theorem group_guard_bbox_ne_nil {results : List Detection}
    (hg : (results.all fun d => !d.bbox.isEmpty) = true) :
    ∀ d ∈ results, d.bbox ≠ [] := by
  intro d hd
  have h := List.all_eq_true.mp hg d hd
  simp only [Bool.not_eq_true'] at h
  intro hnil
  rw [hnil] at h
  simp at h

/-- C6: every paragraph's collective bbox is the axis-aligned rectangle of the
extreme member coordinates, and it encloses every corner point of every member
detection's bbox. -/
theorem group_paragraphs_bbox_containment (results : List Detection) (mdf : ℚ)
    (ps : List Paragraph) (h : group_paragraphs results mdf = some ps)
    (p : Paragraph) (hp : p ∈ ps) :
    ∃ mnx mxx mny mxy,
      p.bbox = some [⟨mnx, mny⟩, ⟨mxx, mny⟩, ⟨mxx, mxy⟩, ⟨mnx, mxy⟩] ∧
      ∀ it ∈ p.individual_items, ∀ pt ∈ it.bbox,
        mnx ≤ pt.x ∧ pt.x ≤ mxx ∧ mny ≤ pt.y ∧ pt.y ≤ mxy := by
  unfold group_paragraphs at h
  by_cases hg : results.all (fun d => !d.bbox.isEmpty)
  · rw [if_pos hg] at h
    replace h := (Option.some.inj h).symm
    subst h
    obtain ⟨cl, hcl, rfl⟩ := List.mem_map.mp hp
    have hclne : cl ≠ [] := buildClusters_ne_nil mdf _ _ _ hcl
    have hmem : ∀ it ∈ cl, it ∈ (mangaSortCore results).map toItem := fun it hit =>
      buildClusters_mem_subset mdf _ _ (le_refl _) cl hcl it hit
    have hbb : ∀ it ∈ cl.mergeSort itemLE, it.bbox ≠ [] := by
      intro it hit
      have hin : it ∈ (mangaSortCore results).map toItem :=
        hmem it (List.mem_mergeSort.mp hit)
      obtain ⟨d, hd, rfl⟩ := List.mem_map.mp hin
      simp only [mangaSortCore, List.mem_mergeSort] at hd
      exact group_guard_bbox_ne_nil hg d hd
    have hsortedne : cl.mergeSort itemLE ≠ [] := by
      intro hnil
      apply hclne
      have hlen := congrArg List.length hnil
      simp only [List.length_mergeSort, List.length_nil] at hlen
      exact List.length_eq_zero.mp hlen
    obtain ⟨q, hq⟩ := calculate_collective_bbox_isSome _ hsortedne hbb
    obtain ⟨mnx, mxx, mny, mxy, hqstruct, hbounds⟩ :=
      calculate_collective_bbox_bounds _ q hq
    refine ⟨mnx, mxx, mny, mxy, ?_, ?_⟩
    · rw [show (buildParagraph cl).bbox = calculate_collective_bbox (cl.mergeSort itemLE)
        from rfl, hq, hqstruct]
    · intro itd hitd pt hpt
      rw [show (buildParagraph cl).individual_items = (cl.mergeSort itemLE).map toDetection
        from rfl] at hitd
      obtain ⟨it, hit, rfl⟩ := List.mem_map.mp hitd
      exact hbounds it hit pt hpt
  · rw [if_neg hg] at h
    exact absurd h (by simp)

/-- Witness for C6 at the concrete Scenario-A output paragraph. -/
theorem group_paragraphs_bbox_containment_witness :
    ∃ mnx mxx mny mxy,
      scenarioParagraph.bbox = some [⟨mnx, mny⟩, ⟨mxx, mny⟩, ⟨mxx, mxy⟩, ⟨mnx, mxy⟩] ∧
      ∀ it ∈ scenarioParagraph.individual_items, ∀ pt ∈ it.bbox,
        mnx ≤ pt.x ∧ pt.x ≤ mxx ∧ mny ≤ pt.y ∧ pt.y ≤ mxy :=
  group_paragraphs_bbox_containment [scenarioDetA, scenarioDetB] 2 [scenarioParagraph]
    (by with_unfolding_all decide) scenarioParagraph (List.mem_cons_self _ _)

/-! ### Order properties of the sort keys -/

theorem keyLE_refl (p : ℚ × ℚ) : keyLE p p = true := by
  simp [keyLE]

theorem keyLE_trans (a b c : ℚ × ℚ) (hab : keyLE a b = true) (hbc : keyLE b c = true) :
    keyLE a c = true := by
  simp only [keyLE, Bool.or_eq_true, Bool.and_eq_true, decide_eq_true_eq] at *
  rcases hab with h | ⟨h1, h2⟩
  · rcases hbc with g | ⟨g1, g2⟩
    · exact Or.inl (lt_trans h g)
    · exact Or.inl (by rw [← g1]; exact h)
  · rcases hbc with g | ⟨g1, g2⟩
    · exact Or.inl (by rw [h1]; exact g)
    · exact Or.inr ⟨h1.trans g1, le_trans h2 g2⟩

theorem keyLE_total (a b : ℚ × ℚ) : (keyLE a b || keyLE b a) = true := by
  simp only [keyLE, Bool.or_eq_true, Bool.and_eq_true, decide_eq_true_eq]
  rcases lt_trichotomy a.1 b.1 with h | h | h
  · exact Or.inl (Or.inl h)
  · rcases le_total a.2 b.2 with h2 | h2
    · exact Or.inl (Or.inr ⟨h, h2⟩)
    · exact Or.inr (Or.inr ⟨h.symm, h2⟩)
  · exact Or.inr (Or.inl h)

theorem itemLE_trans (a b c : Item) (hab : itemLE a b = true) (hbc : itemLE b c = true) :
    itemLE a c = true := keyLE_trans _ _ _ hab hbc

theorem itemLE_total (a b : Item) : (itemLE a b || itemLE b a) = true := keyLE_total _ _

theorem detLE_trans (a b c : Detection) (hab : detLE a b = true) (hbc : detLE b c = true) :
    detLE a c = true := keyLE_trans _ _ _ hab hbc

theorem detLE_total (a b : Detection) : (detLE a b || detLE b a) = true := keyLE_total _ _

/-! ### Claim C7: reading order inside each paragraph -/

/-- C7: consecutive entries of a returned paragraph's `individual_items` are
non-decreasing in the `center_y` of their derived rectangles, and among equal
`center_y` non-increasing in `center_x`. -/
theorem group_paragraphs_reading_order_within (results : List Detection) (mdf : ℚ)
    (ps : List Paragraph) (h : group_paragraphs results mdf = some ps)
    (p : Paragraph) (hp : p ∈ ps) :
    p.individual_items.Chain' (fun a b =>
      (propsD a.bbox).center_y ≤ (propsD b.bbox).center_y ∧
      ((propsD a.bbox).center_y = (propsD b.bbox).center_y →
        (propsD b.bbox).center_x ≤ (propsD a.bbox).center_x)) := by
  unfold group_paragraphs at h
  by_cases hg : results.all (fun d => !d.bbox.isEmpty)
  · rw [if_pos hg] at h
    replace h := (Option.some.inj h).symm
    subst h
    obtain ⟨cl, hcl, rfl⟩ := List.mem_map.mp hp
    have hprops : ∀ it ∈ cl.mergeSort itemLE, it.props = propsD it.bbox := by
      intro it hit
      have hin := buildClusters_mem_subset mdf _ _ (le_refl _) cl hcl it
        (List.mem_mergeSort.mp hit)
      obtain ⟨d, _, rfl⟩ := List.mem_map.mp hin
      rfl
    have hpw : (cl.mergeSort itemLE).Pairwise (fun a b => itemLE a b = true) :=
      List.sorted_mergeSort itemLE_trans itemLE_total cl
    have hpw2 : (cl.mergeSort itemLE).Pairwise (fun a b =>
        (propsD a.bbox).center_y ≤ (propsD b.bbox).center_y ∧
        ((propsD a.bbox).center_y = (propsD b.bbox).center_y →
          (propsD b.bbox).center_x ≤ (propsD a.bbox).center_x)) := by
      refine List.Pairwise.imp_of_mem ?_ hpw
      intro a b ha hb hab
      rw [← hprops a ha, ← hprops b hb]
      simp only [itemLE, keyLE, sortKey, Bool.or_eq_true, Bool.and_eq_true,
        decide_eq_true_eq] at hab
      rcases hab with hlt | ⟨heq, hneg⟩
      · exact ⟨le_of_lt hlt, fun heq2 => absurd hlt (by rw [heq2]; exact lt_irrefl _)⟩
      · exact ⟨le_of_eq heq, fun _ => neg_le_neg_iff.mp hneg⟩
    rw [show (buildParagraph cl).individual_items = (cl.mergeSort itemLE).map toDetection
      from rfl]
    exact List.chain'_map_of_chain' toDetection (fun a b hab => hab) hpw2.chain'
  · rw [if_neg hg] at h
    exact absurd h (by simp)

/-- Witness for C7 at the concrete Scenario-A output paragraph. -/
theorem group_paragraphs_reading_order_within_witness :
    scenarioParagraph.individual_items.Chain' (fun a b =>
      (propsD a.bbox).center_y ≤ (propsD b.bbox).center_y ∧
      ((propsD a.bbox).center_y = (propsD b.bbox).center_y →
        (propsD b.bbox).center_x ≤ (propsD a.bbox).center_x)) :=
  group_paragraphs_reading_order_within [scenarioDetA, scenarioDetB] 2 [scenarioParagraph]
    (by with_unfolding_all decide) scenarioParagraph (List.mem_cons_self _ _)

/-! ### Claim C4: the reading-order sorter -/

theorem guard_of_bbox_ne_nil {results : List Detection}
    (h : ∀ d ∈ results, d.bbox ≠ []) :
    (results.all fun d => !d.bbox.isEmpty) = true := by
  rw [List.all_eq_true]
  intro d hd
  have := h d hd
  cases hb : d.bbox with
  | nil => exact absurd hb this
  | cons p ps => simp [hb]

/-- C4: the reading-order sorter succeeds on valid input and returns a
permutation of its input that is sorted by `(center_y ascending, center_x
descending)`; moreover the sort is stable: restricted to any fixed key value,
the output lists the detections in exactly their input order. -/
theorem manga_reading_order_sort_spec (results : List Detection)
    (hvalid : ∀ d ∈ results, d.bbox ≠ []) :
    ∃ out, manga_reading_order_sort results = some out ∧
      List.Perm out results ∧
      out.Pairwise (fun a b =>
        (propsD a.bbox).center_y < (propsD b.bbox).center_y ∨
        ((propsD a.bbox).center_y = (propsD b.bbox).center_y ∧
          (propsD b.bbox).center_x ≤ (propsD a.bbox).center_x)) ∧
      ∀ k : ℚ × ℚ,
        out.filter (fun d => decide (sortKey (propsD d.bbox) = k)) =
          results.filter (fun d => decide (sortKey (propsD d.bbox) = k)) := by
  refine ⟨mangaSortCore results, ?_, ?_, ?_, ?_⟩
  · rw [manga_reading_order_sort, if_pos (guard_of_bbox_ne_nil hvalid)]
  · exact List.mergeSort_perm results detLE
  · have hpw : (mangaSortCore results).Pairwise (fun a b => detLE a b = true) :=
      List.sorted_mergeSort detLE_trans detLE_total results
    refine hpw.imp ?_
    intro a b hab
    simp only [detLE, keyLE, sortKey, Bool.or_eq_true, Bool.and_eq_true,
      decide_eq_true_eq] at hab
    rcases hab with hlt | ⟨heq, hneg⟩
    · exact Or.inl hlt
    · exact Or.inr ⟨heq, neg_le_neg_iff.mp hneg⟩
  · intro k
    set pred : Detection → Bool := fun d => decide (sortKey (propsD d.bbox) = k) with hpred
    have hkey : ∀ d, pred d = true → sortKey (propsD d.bbox) = k := by
      intro d hd
      rw [hpred] at hd
      exact of_decide_eq_true hd
    have hpwf : (results.filter pred).Pairwise (fun a b => detLE a b = true) := by
      refine List.pairwise_of_forall_mem_list ?_
      intro a ha b hb
      have hka := hkey a (List.of_mem_filter ha)
      have hkb := hkey b (List.of_mem_filter hb)
      rw [detLE, hka, hkb]
      exact keyLE_refl k
    have hsub : List.Sublist (results.filter pred) (mangaSortCore results) :=
      List.sublist_mergeSort detLE_trans detLE_total hpwf (List.filter_sublist results)
    have hsub2 : List.Sublist ((results.filter pred).filter pred)
        ((mangaSortCore results).filter pred) :=
      hsub.filter pred
    rw [List.filter_filter] at hsub2
    have hself : (results.filter fun a => pred a && pred a) = results.filter pred := by
      congr 1
      funext a
      cases pred a <;> rfl
    rw [hself] at hsub2
    have hperm : List.Perm ((mangaSortCore results).filter pred) (results.filter pred) :=
      (List.mergeSort_perm results detLE).filter pred
    exact (hsub2.eq_of_length hperm.length_eq.symm).symm

/-- Witness for C4 at the concrete Scenario-A input. -/
theorem manga_reading_order_sort_spec_witness :
    ∃ out, manga_reading_order_sort [scenarioDetA, scenarioDetB] = some out ∧
      List.Perm out [scenarioDetA, scenarioDetB] ∧
      out.Pairwise (fun a b =>
        (propsD a.bbox).center_y < (propsD b.bbox).center_y ∨
        ((propsD a.bbox).center_y = (propsD b.bbox).center_y ∧
          (propsD b.bbox).center_x ≤ (propsD a.bbox).center_x)) ∧
      ∀ k : ℚ × ℚ,
        out.filter (fun d => decide (sortKey (propsD d.bbox) = k)) =
          [scenarioDetA, scenarioDetB].filter (fun d => decide (sortKey (propsD d.bbox) = k)) :=
  manga_reading_order_sort_spec [scenarioDetA, scenarioDetB]
    (by with_unfolding_all decide)

/-! ### Claim C3: re-grouping is not idempotent in general, but is on
distinct sort keys -/

theorem keyLE_antisymm (p q : ℚ × ℚ) (hpq : keyLE p q = true) (hqp : keyLE q p = true) :
    p = q := by
  simp only [keyLE, Bool.or_eq_true, Bool.and_eq_true, decide_eq_true_eq] at hpq hqp
  rcases hpq with h | ⟨h1, h2⟩
  · rcases hqp with g | ⟨g1, g2⟩
    · exact absurd (lt_trans h g) (lt_irrefl _)
    · exact absurd h (not_lt.mpr (le_of_eq g1))
  · rcases hqp with g | ⟨g1, g2⟩
    · exact absurd g (not_lt.mpr (le_of_eq h1))
    · exact Prod.ext h1 (le_antisymm h2 g2)

/-- Counterexample to C3 as stated: on `cexDets` the first run yields one
paragraph with text `"w m1 u1 u2 m t tp"`, but re-running `group_paragraphs`
on the flattened `individual_items` yields text `"w m1 u1 u2 m tp t"` — the
per-paragraph text is not identical, because the zero-size detection `t` and
its center-sharing partner `tp` trade places. -/
theorem group_paragraphs_regroup_counterexample :
    group_paragraphs cexDets 2 = some [cexPara1] ∧
    group_paragraphs (([cexPara1] : List Paragraph).flatMap Paragraph.individual_items) 2 =
      some [cexPara2] ∧
    cexPara1.text = "w m1 u1 u2 m t tp" ∧
    cexPara2.text = "w m1 u1 u2 m tp t" ∧
    cexPara1.text ≠ cexPara2.text := by
  set_option maxRecDepth 40000 in with_unfolding_all decide

/-- C3 (amended): for every input whose detections have pairwise distinct
sort keys — no two derived rectangles share both `center_y` and `center_x` —
flattening all `individual_items` of the returned paragraphs and running
`group_paragraphs` again with the same threshold reproduces exactly the same
paragraph list (in particular an equivalent partition with identical
per-paragraph text and bbox). -/
theorem group_paragraphs_regroup_distinct_keys (results : List Detection) (mdf : ℚ)
    (ps : List Paragraph) (h : group_paragraphs results mdf = some ps)
    (hkeys : ∀ d1 ∈ results, ∀ d2 ∈ results,
      sortKey (propsD d1.bbox) = sortKey (propsD d2.bbox) → d1 = d2) :
    group_paragraphs (ps.flatMap Paragraph.individual_items) mdf = some ps := by
  have hperm : List.Perm (ps.flatMap Paragraph.individual_items) results :=
    group_paragraphs_flatMap_perm results mdf ps h
  have hg : (results.all fun d => !d.bbox.isEmpty) = true := by
    by_contra hng
    rw [group_paragraphs, if_neg hng] at h
    exact absurd h (by simp)
  have hg2 : ((ps.flatMap Paragraph.individual_items).all fun d => !d.bbox.isEmpty) = true := by
    rw [List.all_eq_true]
    intro d hd
    have hnil := group_guard_bbox_ne_nil hg d (hperm.mem_iff.mp hd)
    cases hb : d.bbox with
    | nil => exact absurd hb hnil
    | cons p rest => simp [hb]
  have hsorted_eq : mangaSortCore (ps.flatMap Paragraph.individual_items) =
      mangaSortCore results := by
    have hAnti : ∀ a b : Detection,
        a ∈ mangaSortCore (ps.flatMap Paragraph.individual_items) →
        b ∈ mangaSortCore results → detLE a b = true → detLE b a = true → a = b := by
      intro a b ha hb hab hba
      have ha' : a ∈ results := hperm.mem_iff.mp (List.mem_mergeSort.mp ha)
      have hb' : b ∈ results := List.mem_mergeSort.mp hb
      exact hkeys a ha' b hb' (keyLE_antisymm _ _ hab hba)
    have hS1 : (mangaSortCore (ps.flatMap Paragraph.individual_items)).Pairwise
        (fun a b => detLE a b = true) :=
      List.sorted_mergeSort detLE_trans detLE_total _
    have hS2 : (mangaSortCore results).Pairwise (fun a b => detLE a b = true) :=
      List.sorted_mergeSort detLE_trans detLE_total _
    have hP : List.Perm (mangaSortCore (ps.flatMap Paragraph.individual_items))
        (mangaSortCore results) :=
      List.Perm.trans (List.mergeSort_perm _ _)
        (hperm.trans (List.mergeSort_perm results detLE).symm)
    exact List.Perm.eq_of_sorted hAnti hS1 hS2 hP
  have run_eq : group_paragraphs (ps.flatMap Paragraph.individual_items) mdf =
      group_paragraphs results mdf := by
    simp only [group_paragraphs, hg, hg2, if_true, hsorted_eq]
  exact run_eq.trans h

/-- Witness for the amended C3 at the concrete Scenario-A input (whose two
detections have distinct sort keys). -/
theorem group_paragraphs_regroup_distinct_keys_witness :
    group_paragraphs (([scenarioParagraph] : List Paragraph).flatMap Paragraph.individual_items)
        2 = some [scenarioParagraph] :=
  group_paragraphs_regroup_distinct_keys [scenarioDetA, scenarioDetB] 2 [scenarioParagraph]
    (by with_unfolding_all decide) (by with_unfolding_all decide)
